import Mathlib

/-!
Verification of the rssbot fetch/post scheduler against its specification.

The Python sources (`fetch_and_post.py`, `db.py`) are shallowly embedded:
instants and durations are rational numbers of UTC seconds, strings are
`String`/`List Char`, fallible code returns `Option`/`Except`, and the
sqlite tables are association lists.  Each definition mirrors one source
function and keeps its name where Lean allows.
-/

namespace RSSBot

/-! ## Time model

`datetime` values are rationals counting seconds since the epoch (all the
code's datetimes are timezone-aware UTC, so absolute seconds are exact).
`timedelta` values are rationals of seconds. -/

def MIN_BACKOFF : ℚ := 5 * 60
def SHORT_BACKOFF : ℚ := 2 * 3600
def LONG_BACKOFF : ℚ := 24 * 3600
def MAX_BACKOFF : ℚ := 4 * 86400

/-- The calendar day (UTC) an instant falls on, as a day number. -/
def dayOf (t : ℚ) : ℤ := Int.floor (t / 86400)

/-- Time of day within the instant's UTC day. -/
def todOf (t : ℚ) : ℚ := t - 86400 * (dayOf t : ℚ)

/-- `t.replace(year=now.year, month=now.month, day=now.day)` on UTC datetimes:
keep `t`'s time of day, move it onto `now`'s calendar date. -/
def replaceDate (t now : ℚ) : ℚ := 86400 * (dayOf now : ℚ) + todOf t

/-- Python `statistics.median`: middle element of the sorted list, or the
mean of the two middle elements when the length is even.  (The source only
calls it on nonempty lists; the default `0` is never reached there.) -/
def median (l : List ℚ) : ℚ :=
  let s := l.mergeSort (fun a b => decide (a ≤ b))
  let n := s.length
  if n % 2 = 1 then s.getD (n / 2) 0
  else (s.getD (n / 2 - 1) 0 + s.getD (n / 2) 0) / 2

/-- The burst-recording loop of `get_median_update_period`
(`fetch_and_post.py` lines 130-141): walk the sorted timestamps, and when
the gap from the current burst's start reaches `MIN_BACKOFF`, record that
gap and restart the burst at the current timestamp. -/
def burstLoop : Option ℚ → List ℚ → List ℚ
  | _, [] => []
  | none, t :: rest => burstLoop (some t) rest
  | some b, t :: rest =>
      if t - b ≥ MIN_BACKOFF then (t - b) :: burstLoop (some t) rest
      else burstLoop (some b) rest

/-- `get_median_update_period` (`fetch_and_post.py` lines 125-151). -/
def get_median_update_period (timestamps : List ℚ) : ℚ :=
  if timestamps = [] then SHORT_BACKOFF
  else
    let burst_times := burstLoop none (timestamps.mergeSort (fun a b => decide (a ≤ b)))
    if burst_times = [] then SHORT_BACKOFF
    else median burst_times

/-- Python `max` over a nonempty list (the `[]` default is never used by
callers, which guard against the empty case). -/
def listMax : List ℚ → ℚ
  | [] => 0
  | h :: t => t.foldl max h

/-- `get_backoff_next_check` (`fetch_and_post.py` lines 153-199), at the
level of the timestamp list it extracts from the db or the fetched
entries. -/
def get_backoff_next_check (timestamps : List ℚ) (now : ℚ) : ℚ :=
  if timestamps = [] then now + LONG_BACKOFF
  else
    let most_recent := listMax timestamps
    let since := now - most_recent
    let update_period := get_median_update_period timestamps
    if since > MAX_BACKOFF then
      -- slow feed strategy: poll once per 24 hours
      let t := replaceDate (most_recent + SHORT_BACKOFF) now
      if t < now then t + 24 * 3600 else t
    else if since < SHORT_BACKOFF then
      -- active period: wait the median time, capped to reasonable values
      now + min (max MIN_BACKOFF update_period) LONG_BACKOFF
    else
      -- inactive period
      now + min (max SHORT_BACKOFF update_period) LONG_BACKOFF

/-! Specification-side restatement of the cadence estimator, written from
the words of the claim: `now + 24 h` on no timestamps; else branch on
`now - max(ts)` with the slow / active / inactive strategies, where the
active and inactive strategies clamp the median burst period. -/

/-- `clamp(x, lo, hi)` as the spec uses it. -/
def clamp (x lo hi : ℚ) : ℚ := min (max x lo) hi

/-- The cadence estimate as the specification describes it. -/
def specNextCheck (timestamps : List ℚ) (now : ℚ) : ℚ :=
  if timestamps = [] then now + 24 * 3600
  else
    let most_recent := listMax timestamps
    let median_period := get_median_update_period timestamps
    if now - most_recent > 4 * 86400 then
      let snapped := replaceDate (most_recent + 2 * 3600) now
      if snapped < now then snapped + 24 * 3600 else snapped
    else if now - most_recent < 2 * 3600 then
      now + clamp median_period (5 * 60) (24 * 3600)
    else
      now + clamp median_period (2 * 3600) (24 * 3600)

/-! ## Headline trimming (`trim_headline`, `fetch_and_post.py` lines 77-98)

Strings are worked on as `List Char`; `utf8CharLen` is the UTF-8 byte
length of one character. -/

/-- UTF-8 encoded length of a character (`len(char.encode('utf-8'))`). -/
def utf8CharLen (c : Char) : Nat :=
  if c.toNat < 0x80 then 1
  else if c.toNat < 0x800 then 2
  else if c.toNat < 0x10000 then 3
  else 4

/-- UTF-8 encoded length of a string (`len(s.encode('utf-8'))`). -/
def utf8Len (s : List Char) : Nat := (s.map utf8CharLen).sum

/-- Python's whitespace class, as used by `str.split(None)` / `str.rsplit`. -/
def pyIsSpace (c : Char) : Bool :=
  c == ' ' || c == '\t' || c == '\n' || c == '\r' ||
  c.toNat == 0x0b || c.toNat == 0x0c ||
  (0x1c ≤ c.toNat && c.toNat ≤ 0x1f) ||
  c.toNat == 0x85 || c.toNat == 0xa0 || c.toNat == 0x1680 ||
  (0x2000 ≤ c.toNat && c.toNat ≤ 0x200a) ||
  c.toNat == 0x2028 || c.toNat == 0x2029 ||
  c.toNat == 0x202f || c.toNat == 0x205f || c.toNat == 0x3000

/-- Drop trailing whitespace. -/
def rstripWs (s : List Char) : List Char := (s.reverse.dropWhile pyIsSpace).reverse

/-- Drop leading whitespace. -/
def lstripWs (s : List Char) : List Char := s.dropWhile pyIsSpace

/-- Drop the trailing run of non-whitespace characters. -/
def dropLastToken (s : List Char) : List Char :=
  (s.reverse.dropWhile (fun c => !pyIsSpace c)).reverse

/-- Python `s.rsplit(None, 1)[0]`: split off the last whitespace-separated
token; the `[0]` indexing raises `IndexError` (here `none`) when the string
is empty or whitespace-only.  When nothing but whitespace precedes the last
token, the split yields a one-element list, so `[0]` is that token. -/
def rsplitNone1Head (s : List Char) : Option (List Char) :=
  let t := rstripWs s
  if t = [] then none
  else
    let u := rstripWs (dropLastToken t)
    if u = [] then some (lstripWs t) else some u

/-- The byte-budgeted character loop of `trim_headline` (lines 81-88):
keep consuming characters while the accumulated byte count stays within
`max_bytes - 3`.  `budget` is the remaining byte allowance. -/
def trimLoop (budget : Int) : List Char → List Char
  | [] => []
  | c :: rest =>
      if (utf8CharLen c : Int) > budget then []
      else c :: trimLoop (budget - utf8CharLen c) rest

/-- `trim_headline(headline, max_bytes)` (`fetch_and_post.py` lines 77-98).
Returns `none` where the Python raises (`IndexError` from `rsplit` on a
whitespace-only retained prefix).  Note the source appends the three
ASCII characters `"..."`, not the single ellipsis character. -/
def trim_headline (headline : List Char) (max_bytes : Nat) : Option (List Char) :=
  if utf8Len headline ≤ max_bytes then some headline
  else
    let trimmed := trimLoop ((max_bytes : Int) - 3) headline
    match rsplitNone1Head trimmed with
    | none => none
    | some t => some (t ++ ['.', '.', '.'])

/-! ## Persistence model (`db.py`)

The two sqlite tables are association lists.  Row ids follow sqlite's
`INTEGER PRIMARY KEY` assignment: a fresh row gets `max(existing id) + 1`
(no row in either table ever reaches sqlite's maximum).  Foreign keys are
*not* enforced by the code (it never issues `PRAGMA foreign_keys=ON`), so
deletes do not cascade and do not fail. -/

structure Feed where
  id : Nat
  feed_url : String
  community_name : String
  community_id : Nat
deriving DecidableEq, Repr

structure Article where
  id : Nat
  feed_id : Nat
  article_url : String
  lemmy_post_id : Option Nat
deriving DecidableEq, Repr

structure DB where
  feeds : List Feed
  articles : List Article
deriving DecidableEq, Repr

/-- sqlite's fresh rowid: one more than the largest existing id. -/
def freshId (ids : List Nat) : Nat := ids.foldr max 0 + 1

/-- `add_feed` (`db.py` lines 39-46): `INSERT OR REPLACE` under the
`UNIQUE(feed_url, community_id)` constraint — a conflicting row is deleted
and the new row inserted with a fresh id. -/
def DB.add_feed (db : DB) (feed_url community_name : String) (community_id : Nat) : DB :=
  let remaining := db.feeds.filter
    (fun f => !(f.feed_url == feed_url && f.community_id == community_id))
  { db with feeds :=
      remaining ++ [⟨freshId (remaining.map Feed.id), feed_url, community_name, community_id⟩] }

/-- `get_article_by_url` (`db.py` lines 84-91). -/
def DB.get_article_by_url (db : DB) (article_url : String) : Option Article :=
  db.articles.find? (fun a => a.article_url == article_url)

/-- `add_article` (`db.py` lines 93-101): `INSERT OR IGNORE` under the
`article_url UNIQUE` constraint. -/
def DB.add_article (db : DB) (feed_id : Nat) (article_url : String) : DB :=
  if db.articles.any (fun a => a.article_url == article_url) then db
  else { db with articles :=
      db.articles ++ [⟨freshId (db.articles.map Article.id), feed_id, article_url, none⟩] }

/-- `update_article_post_id` (`db.py` lines 103-112). -/
def DB.update_article_post_id (db : DB) (article_id lemmy_post_id : Nat) : DB :=
  { db with articles :=
      db.articles.map (fun a =>
        if a.id = article_id then { a with lemmy_post_id := some lemmy_post_id } else a) }

/-- The accumulator of the `ORDER BY id ASC LIMIT 1` selection: keep the
article with the smaller id. -/
def pickMin (acc : Option Article) (a : Article) : Option Article :=
  match acc with
  | none => some a
  | some b => if a.id < b.id then some a else some b

/-- `get_unposted_article` (`db.py` lines 136-146): the article of the feed
with `lemmy_post_id IS NULL` having the smallest id (`ORDER BY id ASC
LIMIT 1`). -/
def DB.get_unposted_article (db : DB) (feed_id : Nat) : Option Article :=
  (db.articles.filter (fun a => a.feed_id == feed_id && a.lemmy_post_id == none)).foldl
    pickMin none

/-- `remove_feed` (`db.py` lines 155-178): delete the feed rows matching
the supplied selectors; with no selector the Python raises `ValueError`
(modelled as `none`).  Returns the number of rows deleted.  Articles of
the deleted feeds are untouched. -/
def DB.remove_feed (db : DB) (community_name feed_url : Option String) :
    Option (DB × Nat) :=
  match community_name, feed_url with
  | none, none => none
  | _, _ =>
      let keep := fun (f : Feed) =>
        !((community_name.all (fun c => f.community_name == c)) &&
          (feed_url.all (fun u => f.feed_url == u)))
      let remaining := db.feeds.filter keep
      some ({ db with feeds := remaining }, db.feeds.length - remaining.length)

/-- One persistence-layer call, for stating the referential-integrity
claim over call sequences. -/
inductive DBOp
  | addFeed (feed_url community_name : String) (community_id : Nat)
  | removeFeed (community_name feed_url : Option String)
  | addArticle (feed_id : Nat) (article_url : String)
deriving DecidableEq, Repr

def applyOp (db : DB) : DBOp → DB
  | .addFeed u c cid => db.add_feed u c cid
  | .removeFeed c u => ((db.remove_feed c u).map Prod.fst).getD db
  | .addArticle fid u => db.add_article fid u

def runOps (db : DB) (ops : List DBOp) : DB := ops.foldl applyOp db

/-- Every article's `feed_id` references an existing feed row. -/
def refIntegrity (db : DB) : Prop :=
  ∀ a ∈ db.articles, ∃ f ∈ db.feeds, f.id = a.feed_id

instance (db : DB) : Decidable (refIntegrity db) := by
  unfold refIntegrity; infer_instance

/-- A call that neither deletes nor replaces a feed row and only adds
articles to existing feeds: `add_feed` with a fresh
`(feed_url, community_id)` pair, `add_article` for an existing feed,
no `remove_feed`. -/
def safeOp (db : DB) : DBOp → Prop
  | .addFeed u _ cid => ∀ f ∈ db.feeds, ¬(f.feed_url = u ∧ f.community_id = cid)
  | .removeFeed _ _ => False
  | .addArticle fid _ => ∃ f ∈ db.feeds, f.id = fid

instance decSafeOp (db : DB) : (op : DBOp) → Decidable (safeOp db op)
  | .addFeed u c cid => by unfold safeOp; infer_instance
  | .removeFeed c u => by unfold safeOp; infer_instance
  | .addArticle fid u => by unfold safeOp; infer_instance

/-- Call sequences all of whose calls are safe against the evolving
database. -/
def safeOps : DB → List DBOp → Prop
  | _, [] => True
  | db, op :: rest => safeOp db op ∧ safeOps (applyOp db op) rest

instance decSafeOps : ∀ (db : DB) (ops : List DBOp), Decidable (safeOps db ops)
  | _, [] => .isTrue trivial
  | db, op :: rest =>
      have : Decidable (safeOps (applyOp db op) rest) := decSafeOps _ _
      by unfold safeOps; infer_instance

/-! ## The per-feed publish step (`fetch_and_post.py` lines 508-560)

One element of `IterInput` describes one outer-loop iteration as it
affects a single due feed: which entry URLs `process_feed_entries` would
stage if a fetch happens, and how the `create_post` call turns out.
`crashAfterSuccess` is the crash point after the publish API call has
returned success but before `update_article_post_id` runs; the process
dies there, so nothing later in the iteration executes, and the next list
element describes the first iteration after restart (the database is the
only state that survives). -/

inductive PublishOutcome
  /-- `create_post` raises; the `except` branch runs `continue`. -/
  | raises
  /-- `create_post` returns a falsy post (or a post with falsy `id`):
  `lemmy_post_id` is `None`, nothing is written. -/
  | noPost
  /-- `create_post` returns a post whose id is `pid`. -/
  | success (pid : Nat)
  /-- The API call returned success (post id `pid`) and the process
  crashed before `update_article_post_id`. -/
  | crashAfterSuccess (pid : Nat)
deriving DecidableEq, Repr

structure IterInput where
  /-- Entry URLs staged by `process_feed_entries` when the fetch happens. -/
  newUrls : List String
  outcome : PublishOutcome
  /-- `datetime.now` during this iteration. -/
  now : ℚ
  /-- Value `get_backoff_next_check` would compute in this iteration. -/
  backoff : ℚ
deriving DecidableEq, Repr

/-- The `process_feed_entries` staging loop: insert each fetched entry
URL in order. -/
def stageNew (db : DB) (feed_id : Nat) : List String → DB
  | [] => db
  | u :: us => stageNew (db.add_article feed_id u) feed_id us

/-- The per-feed portion of one `fetch_and_post` while-loop iteration
(`fetch_and_post.py` lines 508-560) for a feed that is due.  Returns the
database afterwards, the article ids passed to `create_post` (at most
one), and the `next_check` values passed to `update_feed_timestamps`
(the feed-row columns themselves carry no information the claims need,
so only the calls are recorded). -/
def perFeedIter (db : DB) (feed_id : Nat) (inp : IterInput) :
    DB × List (Nat × PublishOutcome) × List ℚ :=
  let unposted := db.get_unposted_article feed_id
  let staged :=
    if unposted = none then stageNew db feed_id inp.newUrls
    else db
  let unposted :=
    if unposted = none then staged.get_unposted_article feed_id else unposted
  match unposted with
  | none =>
      -- nothing to post: next_check from get_backoff_next_check
      (staged, [], [inp.backoff])
  | some a =>
      match inp.outcome with
      | .raises => (staged, [(a.id, .raises)], [])
      | .crashAfterSuccess pid => (staged, [(a.id, .crashAfterSuccess pid)], [])
      | .noPost => (staged, [(a.id, .noPost)],
          [if staged.get_unposted_article feed_id ≠ none then inp.now + MIN_BACKOFF
           else inp.backoff])
      | .success pid =>
          let db2 := if pid ≠ 0 then staged.update_article_post_id a.id pid else staged
          (db2, [(a.id, .success pid)],
           [if db2.get_unposted_article feed_id ≠ none then inp.now + MIN_BACKOFF
            else inp.backoff])

/-- Run a sequence of iterations, accumulating the `create_post` calls. -/
def runTrace (db : DB) (feed_id : Nat) :
    List IterInput → DB × List (Nat × PublishOutcome)
  | [] => (db, [])
  | inp :: rest =>
      let r := perFeedIter db feed_id inp
      let r2 := runTrace r.1 feed_id rest
      (r2.1, r.2.1 ++ r2.2)

/-- The `create_post` calls whose API response reported success
("successfully published"), whether or not the result was recorded. -/
def apiSucceeded : PublishOutcome → Bool
  | .success _ => true
  | .crashAfterSuccess _ => true
  | _ => false

/-- The calls after which `update_article_post_id` durably recorded the
post id (a truthy post id returned, no crash before the write). -/
def wroteId : Nat × PublishOutcome → Option Nat
  | (a, .success pid) => if pid ≠ 0 then some a else none
  | _ => none

/-- The claim's at-most-once property over a trace: no `create_post` call
targets an article for which an earlier call already returned success. -/
def atMostOncePublished (db : DB) (feed_id : Nat) (trace : List IterInput) : Prop :=
  List.Pairwise (fun c c' => apiSucceeded c.2 → c'.1 ≠ c.1)
    (runTrace db feed_id trace).2

instance (db : DB) (feed_id : Nat) (trace : List IterInput) :
    Decidable (atMostOncePublished db feed_id trace) := by
  unfold atMostOncePublished; infer_instance

/-! ## Headline normalization (`process_headline`, `fetch_and_post.py`
lines 406-454)

Each `re.sub` is embedded as the left-to-right scanner it denotes.
Character classes (`isalpha`, `islower`, `isdigit`, `\w`, `\d`) are
modelled over ASCII; the bot's command and tag vocabulary is ASCII.  The
styling strings in the source file are the literal code points found
there (the file is mojibake-damaged, so the `em`/`strong` entries are
four-character strings, and Python's `ord()` on them raises `TypeError`
— hence the `Except` result). -/

def pyIsAlphaA (c : Char) : Bool := ('a' ≤ c && c ≤ 'z') || ('A' ≤ c && c ≤ 'Z')

def pyIsLowerA (c : Char) : Bool := 'a' ≤ c && c ≤ 'z'

def pyIsDigitA (c : Char) : Bool := '0' ≤ c && c ≤ '9'

/-- ASCII model of the regex word class `\w`. -/
def pyIsWordA (c : Char) : Bool := pyIsAlphaA c || pyIsDigitA c || c == '_'

/-- Step 1: `re.sub('\n', ' ', headline)`. -/
def phStep1 (s : List Char) : List Char := s.map (fun c => if c = '\n' then ' ' else c)

inductive Tag | em | strong | sub | sup
deriving DecidableEq, Repr

def tagChars : Tag → List Char
  | .em => ['e', 'm']
  | .strong => ['s', 't', 'r', 'o', 'n', 'g']
  | .sub => ['s', 'u', 'b']
  | .sup => ['s', 'u', 'p']

/-- `styling_map['sub']` — the 30-character string literally present in
the source file. -/
def stylingSub : List Char :=
  ['‚', 'Ç', 'Ä', '‚', 'Ç', 'Å',
   '‚', 'Ç', 'Ç', '‚', 'Ç', 'É',
   '‚', 'Ç', 'Ñ', '‚', 'Ç', 'Ö',
   '‚', 'Ç', 'Ü', '‚', 'Ç', 'á',
   '‚', 'Ç', 'à', '‚', 'Ç', 'â']

/-- `styling_map['sup']` — the 27-character string literally present in
the source file. -/
def stylingSup : List Char :=
  ['‚', 'Å', '∞', '¬', 'π', '¬',
   '≤', '¬', '≥', '‚', 'Å', '¥',
   '‚', 'Å', 'µ', '‚', 'Å', '∂',
   '‚', 'Å', '∑', '‚', 'Å', '∏',
   '‚', 'Å', 'π']

/-- One character of `replace_styled_text`'s loop.  For `em`/`strong` the
`styling_map` entries are four-character strings, so `ord()` on them
raises `TypeError` (`error`) whenever an alphabetic character is styled;
for `sub`/`sup` indexing a string yields its characters, so the arithmetic
uses the first two characters of those strings as base points. -/
def styleChar (tag : Tag) (c : Char) : Except Unit Char :=
  if pyIsAlphaA c then
    match tag with
    | .em | .strong => .error ()
    | .sub =>
        .ok (if pyIsLowerA c then Char.ofNat (0x201A + (c.toNat - 'a'.toNat))
             else Char.ofNat (0x00C7 + (c.toNat - 'A'.toNat)))
    | .sup =>
        .ok (if pyIsLowerA c then Char.ofNat (0x201A + (c.toNat - 'a'.toNat))
             else Char.ofNat (0x00C5 + (c.toNat - 'A'.toNat)))
  else if pyIsDigitA c ∧ (tag = .sub ∨ tag = .sup) then
    .ok ((if tag = .sub then stylingSub else stylingSup).getD (c.toNat - '0'.toNat) ' ')
  else .ok c

def styleContent (tag : Tag) : List Char → Except Unit (List Char)
  | [] => .ok []
  | c :: rest =>
      match styleChar tag c, styleContent tag rest with
      | .ok d, .ok ds => .ok (d :: ds)
      | .error e, _ => .error e
      | _, .error e => .error e

/-- Try the alternation `(em|strong|sub|sup)>` at the position after a
`<`; at most one branch can match. -/
def tryTag (s : List Char) : Option (Tag × List Char) :=
  if (['e', 'm', '>']).isPrefixOf s then some (.em, s.drop 3)
  else if (['s', 't', 'r', 'o', 'n', 'g', '>']).isPrefixOf s then some (.strong, s.drop 7)
  else if (['s', 'u', 'b', '>']).isPrefixOf s then some (.sub, s.drop 4)
  else if (['s', 'u', 'p', '>']).isPrefixOf s then some (.sup, s.drop 4)
  else none

/-- The lazy search `(.*?)closer`: the shortest newline-free content after
which `closer` occurs; returns the content and the text after `closer`. -/
def findClose (closer : List Char) : List Char → Option (List Char × List Char)
  | [] => none
  | c :: rest =>
      if closer.isPrefixOf (c :: rest) then some ([], (c :: rest).drop closer.length)
      else if c = '\n' then none
      else
        match findClose closer rest with
        | some p => some (c :: p.1, p.2)
        | none => none

/-- A match of `<(em|strong|sub|sup)>(.*?)</\1>` starting right after a
`<`: the tag, the lazy content and the remainder after the closer. -/
def matchStyled (s : List Char) : Option (Tag × List Char × List Char) :=
  match tryTag s with
  | none => none
  | some (tag, afterOpen) =>
      match findClose ('<' :: '/' :: (tagChars tag ++ ['>'])) afterOpen with
      | none => none
      | some p => some (tag, p.1, p.2)

/-! The scanners below recurse on suffixes produced by `drop`/`dropWhile`,
which is not structural; each is therefore written with a fuel parameter
set to the input's length.  Every recursive call consumes at least one
character, so the fuel never runs out on the real entry points (the
fuel-exhausted arm returns the remaining input unprocessed). -/

/-- Step 2: `re.sub(r'<(em|strong|sub|sup)>(.*?)</\\1>', replace_styled_text, s)`. -/
def phStep2Go : Nat → List Char → Except Unit (List Char)
  | _, [] => .ok []
  | 0, s => .ok s
  | fuel + 1, c :: rest =>
      if c = '<' then
        match matchStyled rest with
        | some (tag, content, after) =>
            match styleContent tag content, phStep2Go fuel after with
            | .ok styled, .ok tail => .ok (styled ++ tail)
            | .error e, _ => .error e
            | _, .error e => .error e
        | none =>
            match phStep2Go fuel rest with
            | .ok tail => .ok (c :: tail)
            | .error e => .error e
      else
        match phStep2Go fuel rest with
        | .ok tail => .ok (c :: tail)
        | .error e => .error e

def phStep2 (s : List Char) : Except Unit (List Char) := phStep2Go s.length s

/-- Step 3: `re.sub(r'<.*?>', '', s)`. -/
def phStep3Go : Nat → List Char → List Char
  | _, [] => []
  | 0, s => s
  | fuel + 1, c :: rest =>
      if c = '<' then
        match findClose ['>'] rest with
        | some p => phStep3Go fuel p.2
        | none => c :: phStep3Go fuel rest
      else c :: phStep3Go fuel rest

def phStep3 (s : List Char) : List Char := phStep3Go s.length s

/-- Step 4: `re.sub(r'&amp;', '&', s)`. -/
def phStep4Go : Nat → List Char → List Char
  | _, [] => []
  | 0, s => s
  | fuel + 1, c :: rest =>
      if (['&', 'a', 'm', 'p', ';']).isPrefixOf (c :: rest) then
        '&' :: phStep4Go fuel ((c :: rest).drop 5)
      else c :: phStep4Go fuel rest

def phStep4 (s : List Char) : List Char := phStep4Go s.length s

/-- A match of ` *\|.*` at the current position: greedy spaces, a `|`,
then everything up to the next newline; returns the remainder. -/
def matchPipe (s : List Char) : Option (List Char) :=
  match s.dropWhile (fun c => c = ' ') with
  | '|' :: rest => some (rest.dropWhile (fun c => c ≠ '\n'))
  | _ => none

/-- Step 5: `re.sub(r' *\|.*', '', s)`: everything from a (space-padded)
`|` to the end of its line is removed. -/
def phStep5Go : Nat → List Char → List Char
  | _, [] => []
  | 0, s => s
  | fuel + 1, c :: rest =>
      match matchPipe (c :: rest) with
      | some after => phStep5Go fuel after
      | none => c :: phStep5Go fuel rest

def phStep5 (s : List Char) : List Char := phStep5Go s.length s

/-- Consume a nonempty maximal run of characters of class `p`, returning
the remainder (a `+`-quantified class in the date pattern). -/
def parseRun (p : Char → Bool) (s : List Char) : Option (List Char) :=
  match s with
  | c :: _ => if p c then some (s.dropWhile p) else none
  | [] => none

/-- Match ` +\(\d+ \w+ \d+\)$` against the whole remainder; `$` also
matches just before a final newline, so on success the unmatched leftover
(`[]` or `['\n']`) is returned. -/
def dateTailE (s : List Char) : Option (List Char) :=
  match parseRun (fun c => c == ' ') s with
  | none => none
  | some s1 =>
      match s1 with
      | '(' :: s2 =>
          match parseRun pyIsDigitA s2 with
          | none => none
          | some s3 =>
              match s3 with
              | ' ' :: s4 =>
                  match parseRun pyIsWordA s4 with
                  | none => none
                  | some s5 =>
                      match s5 with
                      | ' ' :: s6 =>
                          match parseRun pyIsDigitA s6 with
                          | none => none
                          | some s7 =>
                              match s7 with
                              | [')'] => some []
                              | [')', '\n'] => some ['\n']
                              | _ => none
                      | _ => none
              | _ => none
      | _ => none

/-- The lazy group `(.*?)` before the date tail: the shortest newline-free
content after which `dateTailE` matches.  Returns the group and the
leftover after the match. -/
def findMid : List Char → Option (List Char × List Char)
  | [] => none
  | c :: rest =>
      match dateTailE (c :: rest) with
      | some e => some ([], e)
      | none =>
          if c = '\n' then none
          else
            match findMid rest with
            | some p => some (c :: p.1, p.2)
            | none => none

/-- The greedy ` +` after `Pluralistic:`: try the maximal space run first
and back off one space at a time (shorter runs leave spaces to the lazy
group and to the date tail's own ` +`). -/
def trySp1 : Nat → List Char → Option (List Char × List Char)
  | 0, _ => none
  | k + 1, body =>
      match findMid (body.drop (k + 1)) with
      | some p => some p
      | none => trySp1 k body

/-- Step 6: `re.sub(r'^Pluralistic: +(.*?) +\(\d+ \w+ \d+\)$', r'\1', s)`. -/
def phStep6 (s : List Char) : List Char :=
  if (['P', 'l', 'u', 'r', 'a', 'l', 'i', 's', 't', 'i', 'c', ':']).isPrefixOf s then
    let body := s.drop 12
    match trySp1 (body.takeWhile (fun c => c == ' ')).length body with
    | some p => p.1 ++ p.2
    | none => s
  else s

/-! Step 7 is Python's `html.unescape`.  It is modelled from the spec
("unescape HTML entities"): an entity table restricted to a handful of
common names (with their semicolon-free HTML5 variants) plus decimal and
hexadecimal character references; names are tried longest first, as
`html.unescape` resolves the longest known entity. -/

def pyIsHexDigitA (c : Char) : Bool :=
  pyIsDigitA c || ('a' ≤ c && c ≤ 'f') || ('A' ≤ c && c ≤ 'F')

def hexVal (c : Char) : Nat :=
  if pyIsDigitA c then c.toNat - '0'.toNat
  else if 'a' ≤ c && c ≤ 'f' then c.toNat - 'a'.toNat + 10
  else c.toNat - 'A'.toNat + 10

/-- A numeric character reference's code point, clamped to U+FFFD when it
is not a Unicode scalar value. -/
def refChar (n : Nat) : Char :=
  if n < 0xD800 ∨ (0xE000 ≤ n ∧ n ≤ 0x10FFFF) then Char.ofNat n else '�'

/-- Modelled from the spec: the named-entity table of `html.unescape`,
restricted to common entities, longest names first. -/
def namedEntities : List (List Char × Char) :=
  [(['h', 'e', 'l', 'l', 'i', 'p', ';'], '…'),
   (['m', 'd', 'a', 's', 'h', ';'], '—'),
   (['n', 'd', 'a', 's', 'h', ';'], '–'),
   (['n', 'b', 's', 'p', ';'], ' '),
   (['q', 'u', 'o', 't', ';'], '"'),
   (['a', 'p', 'o', 's', ';'], '\''),
   (['a', 'm', 'p', ';'], '&'),
   (['l', 't', ';'], '<'),
   (['g', 't', ';'], '>'),
   (['q', 'u', 'o', 't'], '"'),
   (['a', 'm', 'p'], '&'),
   (['l', 't'], '<'),
   (['g', 't'], '>')]

def findNamed : List (List Char × Char) → List Char → Option (Char × List Char)
  | [], _ => none
  | (name, ch) :: others, s =>
      if name.isPrefixOf s then some (ch, s.drop name.length)
      else findNamed others s

/-- Decode a numeric character reference: a nonempty digit run in the
given base, with an optional closing `;`. -/
def numRef (p : Char → Bool) (base : Nat) (val : Char → Nat) (ds : List Char) :
    Option (Char × List Char) :=
  match parseRun p ds with
  | none => none
  | some after =>
      let n := (ds.takeWhile p).foldl (fun a c => a * base + val c) 0
      match after with
      | ';' :: t => some (refChar n, t)
      | _ => some (refChar n, after)

/-- Recognize one entity right after a `&`: `#` + decimal digits,
`#x`/`#X` + hex digits (each with an optional closing `;`), or a named
entity; returns the decoded character and the remainder. -/
def matchEntity (rest : List Char) : Option (Char × List Char) :=
  match rest with
  | '#' :: more =>
      match more with
      | 'x' :: hs => numRef pyIsHexDigitA 16 hexVal hs
      | 'X' :: hs => numRef pyIsHexDigitA 16 hexVal hs
      | _ => numRef pyIsDigitA 10 (fun c => c.toNat - '0'.toNat) more
  | _ => findNamed namedEntities rest

/-- Python `html.unescape`, over the modelled entity table: scan for `&`
and decode the entity there if one matches. -/
def unescapeGo : Nat → List Char → List Char
  | _, [] => []
  | 0, s => s
  | fuel + 1, c :: rest =>
      if c = '&' then
        match matchEntity rest with
        | some p => p.1 :: unescapeGo fuel p.2
        | none => '&' :: unescapeGo fuel rest
      else c :: unescapeGo fuel rest

def unescape (s : List Char) : List Char := unescapeGo s.length s

/-- `process_headline` (`fetch_and_post.py` lines 406-454): collapse
newlines, render styled tags, strip remaining tags, unescape `&amp;`,
cut at `|`, strip the Pluralistic wrapper, unescape entities.  `error`
is the `TypeError` Python raises when `replace_styled_text` styles an
alphabetic character through the file's damaged `em`/`strong` table. -/
def process_headline (s : List Char) : Except Unit (List Char) :=
  match phStep2 (phStep1 s) with
  | .error e => .error e
  | .ok t2 => .ok (unescape (phStep6 (phStep5 (phStep4 (phStep3 t2)))))

instance {e a : Type} [DecidableEq e] [DecidableEq a] : DecidableEq (Except e a)
  | .ok x, .ok y =>
      if h : x = y then .isTrue (by rw [h]) else .isFalse (by intro hc; cases hc; exact h rfl)
  | .error x, .error y =>
      if h : x = y then .isTrue (by rw [h]) else .isFalse (by intro hc; cases hc; exact h rfl)
  | .ok x, .error y => .isFalse (by intro hc; cases hc)
  | .error x, .ok y => .isFalse (by intro hc; cases hc)

/-! ## Command processing (`process_commands`, `fetch_and_post.py`
lines 287-404)

The remote API is a record of pure functions (one message-processing run
observes a fixed remote state); the database is the `DB` model above.
API calls that can raise return `Except Unit`; the `try/except` around
each command body catches those errors.  The `add_feed` calls made are
also recorded separately, so that claims about *whether* a feed row was
added are direct. -/

structure CmdEnv where
  /-- `Config.LEMMY_SERVER`. -/
  lemmyServer : String
  /-- Result of `api.resolve_community` (`lemmy.py` lines 65-73): the
  resolved community (`some id`) or `None`; `error` models an exception
  escaping the request. -/
  resolveCommunity : String → Except Unit (Option Nat)
  /-- Result of `api.fetch_community_id` (`lemmy.py` lines 75-84): the
  id on success; `error` models a raised `ValueError` (missing
  community) or network error; `none` a null id in the response. -/
  fetchCommunityId : String → Except Unit (Option Nat)
  /-- The community's moderators as the server reports them
  (`response.json().get('moderators')`), as a list of user names. -/
  moderators : String → List String

/-- `fetch_community_moderators` (`lemmy.py` lines 86-95): the server's
moderators list is returned only when truthy; an empty or missing list
raises `ValueError`. -/
def fetch_community_moderators (env : CmdEnv) (community_name : String) :
    Except Unit (List String) :=
  match env.moderators community_name with
  | [] => .error ()
  | m :: ms => .ok (m :: ms)

/-- `check_moderator` (`fetch_and_post.py` lines 287-296): scan the
moderator list for the user's name; the `ValueError` raised by
`fetch_community_moderators` propagates. -/
def check_moderator (env : CmdEnv) (user_name community_name : String) :
    Except Unit Bool :=
  match fetch_community_moderators env community_name with
  | .error e => .error e
  | .ok moderators => .ok (moderators.any (fun m => m == user_name))

structure CmdState where
  response : List String
  db : DB
  addFeedCalls : List (String × String × Nat × String)
deriving DecidableEq, Repr

def pushResp (st : CmdState) (r : String) : CmdState :=
  { st with response := st.response ++ [r] }

/-- `re.search(r'\/(\w+)(.*)', line)`: the first `/` followed by at least
one word character; yields the command word and the rest of the line. -/
def findCmdMatch : List Char → Option (List Char × List Char)
  | [] => none
  | c :: rest =>
      if c = '/' ∧ (rest.headD ' ' |> pyIsWordA) then
        some (rest.takeWhile pyIsWordA, rest.dropWhile pyIsWordA)
      else findCmdMatch rest

/-- Python `s.split()` (no separator): split on whitespace runs, no empty
parts.  Fuel-based like the scanners above. -/
def splitWsGo : Nat → List Char → List (List Char)
  | _, [] => []
  | 0, _ => []
  | fuel + 1, c :: rest =>
      if pyIsSpace c then splitWsGo fuel rest
      else ((c :: rest).takeWhile (fun x => !pyIsSpace x)) ::
        splitWsGo fuel ((c :: rest).dropWhile (fun x => !pyIsSpace x))

def splitWs (s : List Char) : List (List Char) := splitWsGo s.length s

/-- Python `s.strip()`. -/
def pyStrip (s : List Char) : List Char := rstripWs (lstripWs s)

/-- Python `s.lstrip('!')`. -/
def lstripBang (s : String) : String := String.mk (s.toList.dropWhile (fun c => c = '!'))

/-- Python `c in s` for a single character (structural, so that concrete
runs reduce). -/
def strContains (s : String) (c : Char) : Bool := s.toList.any (fun x => x = c)

/-- Python `s.split('\\n')` (keeps empty parts). -/
def splitOnNl : List Char → List (List Char)
  | [] => [[]]
  | c :: rest =>
      let r := splitOnNl rest
      if c = '\n' then [] :: r
      else (c :: r.headD []) :: r.tail

/-- Python `sep.join(parts)`. -/
def joinSep (sep : String) : List String → String
  | [] => ""
  | [x] => x
  | x :: xs => x ++ sep ++ joinSep sep xs

/-- `get_help_text` (`fetch_and_post.py` lines 395-404), the literal
triple-quoted string including its surrounding newlines and indentation. -/
def get_help_text : String :=
  "\nAvailable commands:\n* /add \x7brss_url\x7d \x7bcommunity\x7d@\x7binstance\x7d - Add a new RSS feed\n* /delete \x7brss_url\x7d \x7bcommunity\x7d@\x7binstance\x7d - Delete an existing RSS feed\n* /list \x7bcommunity\x7d@\x7binstance\x7d - List all feeds for a community\n* /help - Show this help message\n\nYou can include multiple commands in a single message, each on a new line.\n    "

/-- The `/list` accumulation loop (`fetch_and_post.py` lines 357-367):
the `* url` lines appended for feeds whose (default-suffixed) stored
community name equals the argument. -/
def list_branch (server : String) (feeds : List Feed) (community : String) : List String :=
  feeds.foldl
    (fun acc feed =>
      let feed_community :=
        if strContains feed.community_name '@' then feed.community_name
        else feed.community_name ++ "@" ++ server
      if feed_community = community then acc ++ ["* " ++ feed.feed_url] else acc)
    []

/-- The raise-free tail of the command dispatch: `list`, `help` and the
unknown-command fallback (`fetch_and_post.py` lines 352-381). -/
def processListHelpUnknown (env : CmdEnv) (st : CmdState) (line command : String)
    (args : List String) : CmdState :=
  if command = "list" then
        let st := pushResp st ("> " ++ line)
        if args.length = 1 then
          let community := args.getD 0 ""
          let starred := list_branch env.lemmyServer st.db.feeds community
          let count := starred.length
          let response := st.response ++ starred
          if count = 0 then
            { st with response := response ++ ["No feeds found connected to !" ++ community] }
          else
            let idx := response.length - count
            let merged := response.set idx
              ("Feeds active for !" ++ community ++ ":\n" ++ response.getD idx "")
            { st with response := merged }
        else pushResp st "Invalid number of arguments for /list command."
      else if command = "help" then
        let st := pushResp st ("> " ++ line)
        pushResp st get_help_text
      else
        let st := pushResp st ("> " ++ line)
        pushResp st ("Unknown command: " ++ command)

/-- One line of the command loop in `process_commands`
(`fetch_and_post.py` lines 300-385).  The command body runs inside a
`try/except` (lines 310, 382-385): `error` carries the response state
at the moment an exception is raised, and the handler appends the
generic failure note to it. -/
def processLine (env : CmdEnv) (sender_name bot_username : String)
    (st : CmdState) (line : String) : CmdState :=
  match findCmdMatch line.toList with
  | none => st
  | some (cmdChars, argsChars) =>
      let command := String.mk cmdChars
      let args := (splitWs (pyStrip argsChars)).map String.mk
      let body : Except CmdState CmdState :=
        if command = "add" then
          let st := pushResp st ("> " ++ line)
          if args.length = 2 then
            let rss_url := args.getD 0 ""
            let community_name := lstripBang (args.getD 1 "")
            let community_name :=
              if strContains community_name '@' then community_name
              else community_name ++ "@" ++ env.lemmyServer
            match env.resolveCommunity community_name with
            | .error _ => .error st
            | .ok (some _) =>
                match check_moderator env sender_name community_name with
                | .error _ => .error st
                | .ok is_mod =>
                    let st :=
                      if is_mod then st
                      else pushResp st (sender_name ++ " must be a moderator of !" ++
                        community_name ++ " to make changes.")
                    match env.fetchCommunityId community_name with
                    | .error _ => .error st
                    | .ok none =>
                        .ok (pushResp st ("Could not find community !" ++ community_name))
                    | .ok (some community_id) =>
                        let st := { st with
                          db := st.db.add_feed rss_url community_name community_id,
                          addFeedCalls := st.addFeedCalls ++
                            [(rss_url, community_name, community_id, bot_username)] }
                        .ok (pushResp st ("Added " ++ rss_url ++ " to !" ++ community_name))
            | .ok none => .ok (pushResp st ("Could not find !" ++ community_name))
          else .ok (pushResp st "Invalid number of arguments for /add command.")
        else if command = "delete" then
          let st := pushResp st ("> " ++ line)
          if args.length = 2 then
            let rss_url := args.getD 0 ""
            let community := lstripBang (args.getD 1 "")
            match check_moderator env sender_name community with
            | .error _ => .error st
            | .ok true =>
                match st.db.remove_feed (some community) (some rss_url) with
                | none => .error st
                | some (db2, changes) =>
                    let st := { st with db := db2 }
                    if changes = 0 then
                      .ok (pushResp st ("No feed " ++ rss_url ++ " found in !" ++ community))
                    else
                      .ok (pushResp st ("Deleted " ++ toString changes ++ " feed" ++
                        (if changes > 1 then "s" else "") ++ " from !" ++ community))
            | .ok false =>
                .ok (pushResp st (sender_name ++ " must be a moderator of !" ++ community ++
                  " to make changes."))
          else .ok (pushResp st "Invalid number of arguments for /delete command.")
        else .ok (processListHelpUnknown env st line command args)
      match body with
      | .ok st2 => st2
      | .error stp =>
          pushResp stp ("An error occurred while processing the '" ++ command ++
            "' command. Please try again later or contact the bot administrator if the problem persists.")

/-- `process_commands` (`fetch_and_post.py` lines 298-393): run every
line, fall back to the help text when no command matched, and join the
response blocks with blank lines. -/
def process_commands (env : CmdEnv) (content sender_name bot_username : String)
    (db : DB) : String × CmdState :=
  let st0 : CmdState := ⟨[], db, []⟩
  let lines := (splitOnNl content.toList).map String.mk
  let st := lines.foldl (processLine env sender_name bot_username) st0
  let st :=
    if st.response = [] then
      pushResp (pushResp st "No commands found. Did you mean to send me RSS commands?")
        get_help_text
    else st
  (joinSep "\n\n" st.response, st)

/-! ## Concrete inputs used by counterexamples and witnesses -/

/-- A 202-byte headline: 198 `a`s, a space, then `bcd`. -/
def trimCexIn : List Char := List.replicate 198 'a' ++ [' ', 'b', 'c', 'd']

/-- What `trim_headline` returns on `trimCexIn`. -/
def trimCexOut : List Char := List.replicate 197 'a' ++ ['.', '.', '.']

/-- An API environment where every community resolves (id 7) and the
server reports the non-empty moderator list `["bob"]` — so
`fetch_community_moderators` returns normally and `check_moderator`
yields `false` for the sender `alice`. -/
def envNoMod : CmdEnv :=
  ⟨"srv", fun _ => .ok (some 7), fun _ => .ok (some 7), fun _ => ["bob"]⟩

/-- A store holding one feed under the bare community key `foo`, and an
API where user `u` moderates everything. -/
def dbListFoo : DB := ⟨[⟨1, "http://x/rss", "foo", 5⟩], []⟩

def envListFoo : CmdEnv :=
  ⟨"default", fun _ => .ok (some 5), fun _ => .ok (some 5), fun _ => ["u"]⟩

/-- A store with one feed (id 1) and one unposted article (id 1). -/
def dbOneUnposted : DB := ⟨[⟨1, "http://x/rss", "c", 1⟩], [⟨1, 1, "http://x/a", none⟩]⟩

/-- The operation sequence of the C3 counterexample: add a feed, add one
of its articles, then remove the feed. -/
def c3Ops : List DBOp :=
  [.addFeed "http://x/rss" "foo" 1, .addArticle 1 "http://x/a", .removeFeed (some "foo") none]

/-- A crash right after a successful publish API call, then a restart
that publishes again. -/
def c2Trace : List IterInput := [⟨[], .crashAfterSuccess 9, 0, 0⟩, ⟨[], .success 9, 0, 0⟩]

end RSSBot

/-! # Theorems -/

namespace RSSBot

set_option maxRecDepth 10000

/-- **C5.**  The cadence estimator computes exactly what the claim
describes: `now + 24 h` on an empty timestamp list; otherwise, with the
median burst period, (a) beyond 4 days of silence the slow strategy
(`most_recent + 2 h` snapped onto today's date, plus 24 h if already
past), (b) within 2 h the active strategy `now + clamp(median, 5 min,
24 h)`, (c) otherwise `now + clamp(median, 2 h, 24 h)`. -/
theorem getBackoff_eq_spec (timestamps : List ℚ) (now : ℚ) :
    get_backoff_next_check timestamps now = specNextCheck timestamps now := by
  unfold get_backoff_next_check specNextCheck clamp
  unfold MIN_BACKOFF SHORT_BACKOFF LONG_BACKOFF MAX_BACKOFF
  split
  · rfl
  · simp only [max_comm]

/-! Byte-length bookkeeping for the trimming claims. -/

theorem utf8Len_append (a b : List Char) : utf8Len (a ++ b) = utf8Len a + utf8Len b := by
  simp [utf8Len]

theorem utf8Len_reverse (l : List Char) : utf8Len l.reverse = utf8Len l := by
  simp [utf8Len, List.sum_reverse]

theorem utf8Len_dropWhile_le (p : Char → Bool) (l : List Char) :
    utf8Len (l.dropWhile p) ≤ utf8Len l := by
  obtain ⟨t, ht⟩ := (List.dropWhile_suffix p : l.dropWhile p <:+ l)
  conv_rhs => rw [← ht]
  rw [utf8Len_append]
  omega

theorem rstripWs_le (s : List Char) : utf8Len (rstripWs s) ≤ utf8Len s := by
  unfold rstripWs
  rw [utf8Len_reverse]
  calc utf8Len (s.reverse.dropWhile pyIsSpace) ≤ utf8Len s.reverse :=
        utf8Len_dropWhile_le _ _
    _ = utf8Len s := utf8Len_reverse s

theorem lstripWs_le (s : List Char) : utf8Len (lstripWs s) ≤ utf8Len s :=
  utf8Len_dropWhile_le _ _

theorem dropLastToken_le (s : List Char) : utf8Len (dropLastToken s) ≤ utf8Len s := by
  unfold dropLastToken
  rw [utf8Len_reverse]
  calc utf8Len (s.reverse.dropWhile (fun c => !pyIsSpace c)) ≤ utf8Len s.reverse :=
        utf8Len_dropWhile_le _ _
    _ = utf8Len s := utf8Len_reverse s

theorem rsplitNone1Head_le {s r : List Char} (h : rsplitNone1Head s = some r) :
    utf8Len r ≤ utf8Len s := by
  unfold rsplitNone1Head at h
  dsimp only at h
  split at h
  · exact absurd h (by simp)
  · split at h
    · simp only [Option.some.injEq] at h
      rw [← h]
      exact le_trans (lstripWs_le _) (rstripWs_le _)
    · simp only [Option.some.injEq] at h
      rw [← h]
      exact le_trans (rstripWs_le _) (le_trans (dropLastToken_le _) (rstripWs_le _))

theorem trimLoop_le : ∀ (s : List Char) (b : Int), 0 ≤ b →
    (utf8Len (trimLoop b s) : Int) ≤ b := by
  intro s
  induction s with
  | nil => intro b hb; simp [trimLoop, utf8Len]; exact hb
  | cons c rest ih =>
      intro b hb
      unfold trimLoop
      split
      · simp [utf8Len]; exact hb
      · rename_i hc
        push_neg at hc
        have h2 := ih (b - utf8CharLen c) (by omega)
        have : utf8Len (c :: trimLoop (b - utf8CharLen c) rest) =
            utf8CharLen c + utf8Len (trimLoop (b - utf8CharLen c) rest) := by
          simp [utf8Len]
        rw [this]
        push_cast
        omega

/-- **C6 (amended).**  Whenever `trim_headline` returns (whitespace-only
long inputs raise instead, cf. C10), the result is at most 200 UTF-8
bytes, and a modified result always ends in the three ASCII characters
`"..."` — not in the single `…` character the claim states. -/
theorem trim_headline_bounded : ∀ (s r : List Char), trim_headline s 200 = some r →
    utf8Len r ≤ 200 ∧ (r ≠ s → ∃ t, r = t ++ ['.', '.', '.']) := by
  intro s r h
  unfold trim_headline at h
  dsimp only at h
  simp only [Nat.cast_ofNat] at h
  split at h
  · rename_i hle
    simp only [Option.some.injEq] at h
    subst h
    exact ⟨hle, fun hne => absurd rfl hne⟩
  · rename_i hgt
    split at h
    · exact absurd h (by simp)
    · rename_i t hr
      simp only [Option.some.injEq] at h
      subst h
      constructor
      · have h1 : utf8Len t ≤ utf8Len (trimLoop ((200 : Int) - 3) s) :=
          rsplitNone1Head_le hr
        have h2 : (utf8Len (trimLoop ((200 : Int) - 3) s) : Int) ≤ (200 : Int) - 3 :=
          trimLoop_le s _ (by norm_num)
        have h3 : utf8Len (t ++ ['.', '.', '.']) = utf8Len t + 3 := by
          rw [utf8Len_append]; rfl
        omega
      · exact fun _ => ⟨t, rfl⟩

/-- **C6 witness.** -/
theorem trim_headline_bounded_witness :
    utf8Len trimCexOut ≤ 200 ∧ (trimCexOut ≠ trimCexIn → ∃ t, trimCexOut = t ++ ['.', '.', '.']) :=
  trim_headline_bounded trimCexIn trimCexOut (by decide)

/-- **C6 counterexample.**  On the 202-byte `trimCexIn` the trimmed
result is modified but ends in `'.'`, not in the `…` character the claim
requires. -/
theorem trim_headline_not_ellipsis :
    trim_headline trimCexIn 200 = some trimCexOut ∧
    trimCexOut ≠ trimCexIn ∧
    trimCexOut.getLast? = some '.' ∧
    trimCexOut.getLast? ≠ some '…' := by
  refine ⟨by decide, by decide, by decide, by decide⟩

/-- **C10.**  The trimming function is partial: when the input exceeds
200 UTF-8 bytes and the retained prefix (the characters fitting in 197
bytes) is entirely whitespace, the `rsplit(None, 1)[0]` indexing raises
`IndexError` — modelled as `none`. -/
theorem trim_headline_whitespace_raises : ∀ s : List Char, 200 < utf8Len s →
    (∀ c ∈ trimLoop (197 : Int) s, pyIsSpace c = true) →
    trim_headline s 200 = none := by
  intro s hlen hws
  have hstrip : rstripWs (trimLoop (197 : Int) s) = [] := by
    unfold rstripWs
    have h0 : (trimLoop (197 : Int) s).reverse.dropWhile pyIsSpace = [] := by
      rw [List.dropWhile_eq_nil_iff]
      intro a ha
      exact hws a (List.mem_reverse.mp ha)
    rw [h0]
    rfl
  have hsplit : rsplitNone1Head (trimLoop (197 : Int) s) = none := by
    simp [rsplitNone1Head, hstrip]
  unfold trim_headline
  dsimp only
  norm_num
  rw [if_neg (by omega), hsplit]

/-- **C10 witness:** a 201-space title. -/
theorem trim_headline_whitespace_raises_witness :
    200 < utf8Len (List.replicate 201 ' ') ∧
    trim_headline (List.replicate 201 ' ') 200 = none :=
  ⟨by decide, trim_headline_whitespace_raises _ (by decide) (by decide)⟩

/-- **C1 (code bug).**  A `/add` from `alice`, who is not among the
community's moderators (the server reports the non-empty list `["bob"]`,
so `fetch_community_moderators` returns normally and `check_moderator`
returns `false` — no exception is raised): the command processor still
calls `db.add_feed`, stores the feed row, and answers both "must be a
moderator … to make changes." and "Added …" — the moderator check gates
nothing in the `add` branch. -/
theorem add_executes_despite_failed_moderator_check :
    check_moderator envNoMod "alice" "foo@srv" = .ok false ∧
    (process_commands envNoMod "/add http://x/rss foo" "alice" "bot" ⟨[], []⟩).2.addFeedCalls =
      [("http://x/rss", "foo@srv", 7, "bot")] ∧
    (process_commands envNoMod "/add http://x/rss foo" "alice" "bot" ⟨[], []⟩).2.db.feeds =
      [⟨1, "http://x/rss", "foo@srv", 7⟩] ∧
    (process_commands envNoMod "/add http://x/rss foo" "alice" "bot" ⟨[], []⟩).1 =
      "> /add http://x/rss foo\n\nalice must be a moderator of !foo@srv to make changes.\n\nAdded http://x/rss to !foo@srv" := by
  refine ⟨by decide, by decide, by decide, by decide⟩

/-- **C8 counterexample.**  With a feed stored under the bare community
key `foo` and default server `default`, the claim says `/list foo`
reports "Feeds active for !foo@default:" with the feed's URL; the code
compares the *suffixed stored key* (`foo@default`) with the *raw
argument* (`foo`), finds no match, and reports no feeds at all. -/
theorem list_bare_community_reports_none :
    (process_commands envListFoo "/list foo" "u" "bot" dbListFoo).1 =
      "> /list foo\n\nNo feeds found connected to !foo" ∧
    ¬ ("http://x/rss".toList <:+: (process_commands envListFoo "/list foo" "u" "bot" dbListFoo).1.toList) := by
  refine ⟨by decide, by decide⟩

/-- **C8 (amended).**  `/list` echoes exactly the `feed_url`s of feeds
whose *stored* community key, after the default-instance suffix is
applied to it, equals the argument verbatim; so the stored-under-`foo`
feed is listed by `/list foo@default` (with the header echoing the
argument), not by `/list foo`. -/
theorem list_matches_suffix_applied_stored_key :
    (∀ (server : String) (feeds : List Feed) (community : String),
        list_branch server feeds community =
          (feeds.filter (fun f =>
            (if strContains f.community_name '@' then f.community_name
             else f.community_name ++ "@" ++ server) == community)).map
            (fun f => "* " ++ f.feed_url)) ∧
    (process_commands envListFoo "/list foo@default" "u" "bot" dbListFoo).1 =
      "> /list foo@default\n\nFeeds active for !foo@default:\n* http://x/rss" := by
  constructor
  · intro server feeds community
    have key : ∀ (fs : List Feed) (acc : List String),
        fs.foldl
          (fun acc feed =>
            let feed_community :=
              if strContains feed.community_name '@' then feed.community_name
              else feed.community_name ++ "@" ++ server
            if feed_community = community then acc ++ ["* " ++ feed.feed_url] else acc)
          acc =
        acc ++ (fs.filter (fun f =>
            (if strContains f.community_name '@' then f.community_name
             else f.community_name ++ "@" ++ server) == community)).map
            (fun f => "* " ++ f.feed_url) := by
      intro fs
      induction fs with
      | nil => intro acc; simp
      | cons f rest ih =>
          intro acc
          simp only [List.foldl_cons, List.filter_cons]
          by_cases hc :
            (if strContains f.community_name '@' then f.community_name
             else f.community_name ++ "@" ++ server) = community
          · rw [if_pos hc, ih]
            have hb : ((if strContains f.community_name '@' then f.community_name
                else f.community_name ++ "@" ++ server) == community) = true := by
              exact beq_iff_eq.mpr hc
            rw [hb]
            simp
          · rw [if_neg hc, ih]
            have hb : ((if strContains f.community_name '@' then f.community_name
                else f.community_name ++ "@" ++ server) == community) = false := by
              exact beq_eq_false_iff_ne.mpr hc
            rw [hb]
            simp
    exact key feeds []
  · decide

/-! Referential-integrity bookkeeping (C3). -/

theorem le_foldr_max {ids : List Nat} {i : Nat} (h : i ∈ ids) : i ≤ ids.foldr max 0 := by
  induction ids with
  | nil => cases h
  | cons x xs ih =>
      rcases List.mem_cons.mp h with h1 | h2
      · subst h1; exact le_max_left _ _
      · exact le_trans (ih h2) (le_max_right _ _)

theorem freshId_gt {ids : List Nat} {i : Nat} (h : i ∈ ids) : i < freshId ids := by
  have := le_foldr_max h
  unfold freshId
  omega

theorem refIntegrity_addFeed {db : DB} {u c : String} {cid : Nat}
    (hint : refIntegrity db)
    (hsafe : ∀ f ∈ db.feeds, ¬(f.feed_url = u ∧ f.community_id = cid)) :
    refIntegrity (db.add_feed u c cid) := by
  have hfilter :
      db.feeds.filter (fun f => !(f.feed_url == u && f.community_id == cid)) = db.feeds := by
    apply List.filter_eq_self.mpr
    intro f hf
    have h := hsafe f hf
    simp
    tauto
  intro a ha
  have ha' : a ∈ db.articles := ha
  obtain ⟨f, hf, hfid⟩ := hint a ha'
  refine ⟨f, ?_, hfid⟩
  show f ∈ db.feeds.filter _ ++ [_]
  rw [hfilter]
  exact List.mem_append_left _ hf

theorem refIntegrity_addArticle {db : DB} {fid : Nat} {url : String}
    (hint : refIntegrity db)
    (hsafe : ∃ f ∈ db.feeds, f.id = fid) :
    refIntegrity (db.add_article fid url) := by
  unfold DB.add_article
  split
  · exact hint
  · intro a ha
    rcases List.mem_append.mp ha with h1 | h2
    · exact hint a h1
    · obtain ⟨f, hf, hfid⟩ := hsafe
      have : a = ⟨freshId (db.articles.map Article.id), fid, url, none⟩ := by
        simpa using h2
      subst this
      exact ⟨f, hf, hfid⟩

/-- **C3 (amended).**  Referential integrity is preserved by call
sequences that never delete or replace a feed row: `add_feed` with a
fresh `(feed_url, community_id)` pair and `add_article` into an existing
feed keep every article's `feed_id` pointing at an existing feed.
(`remove_feed` — and `add_feed`'s `INSERT OR REPLACE` when it displaces
a row — can orphan articles, cf. the counterexample.) -/
theorem refIntegrity_safeOps : ∀ (ops : List DBOp) (db : DB),
    refIntegrity db → safeOps db ops → refIntegrity (runOps db ops) := by
  intro ops
  induction ops with
  | nil => intro db h _; exact h
  | cons op rest ih =>
      intro db hint hsafe
      obtain ⟨h1, h2⟩ := hsafe
      have hint' : refIntegrity (applyOp db op) := by
        cases op with
        | addFeed u c cid => exact refIntegrity_addFeed hint h1
        | removeFeed c u => exact h1.elim
        | addArticle fid url => exact refIntegrity_addArticle hint h1
      exact ih (applyOp db op) hint' h2

/-- **C3 witness.** -/
theorem refIntegrity_safeOps_witness :
    refIntegrity (⟨[], []⟩ : DB) ∧
    safeOps ⟨[], []⟩ [.addFeed "http://x/rss" "foo" 1, .addArticle 1 "http://x/a"] ∧
    refIntegrity
      (runOps ⟨[], []⟩ [.addFeed "http://x/rss" "foo" 1, .addArticle 1 "http://x/a"]) :=
  ⟨by decide, by decide,
    refIntegrity_safeOps [.addFeed "http://x/rss" "foo" 1, .addArticle 1 "http://x/a"]
      ⟨[], []⟩ (by decide) (by decide)⟩

/-- **C3 counterexample.**  `add_feed`, `add_article`, `remove_feed`:
the article row survives the feed's deletion with a dangling `feed_id`
(the code never enables foreign-key enforcement and does not cascade). -/
theorem remove_feed_breaks_integrity : ¬ refIntegrity (runOps ⟨[], []⟩ c3Ops) := by
  decide

/-! Identity of each normalization pass on strings free of its trigger
characters (C7). -/

theorem phStep1_id {s : List Char} (h : '\n' ∉ s) : phStep1 s = s := by
  induction s with
  | nil => rfl
  | cons c rest ih =>
      unfold phStep1 at *
      simp only [List.map_cons]
      rw [if_neg (by intro hc; subst hc; exact h (List.mem_cons_self _ _)),
        ih (fun hm => h (List.mem_cons_of_mem _ hm))]

theorem phStep2Go_id : ∀ (fuel : Nat) (s : List Char), s.length ≤ fuel → '<' ∉ s →
    phStep2Go fuel s = .ok s := by
  intro fuel
  induction fuel with
  | zero =>
      intro s hl _
      cases s with
      | nil => rfl
      | cons c rest => simp at hl
  | succ n ih =>
      intro s hl hn
      cases s with
      | nil => rfl
      | cons c rest =>
          unfold phStep2Go
          rw [if_neg (by intro hc; subst hc; exact hn (List.mem_cons_self _ _))]
          rw [ih rest (by simp at hl; omega) (fun hm => hn (List.mem_cons_of_mem _ hm))]

theorem phStep2_id {s : List Char} (h : '<' ∉ s) : phStep2 s = .ok s :=
  phStep2Go_id s.length s le_rfl h

theorem phStep3Go_id : ∀ (fuel : Nat) (s : List Char), s.length ≤ fuel → '<' ∉ s →
    phStep3Go fuel s = s := by
  intro fuel
  induction fuel with
  | zero =>
      intro s hl _
      cases s with
      | nil => rfl
      | cons c rest => simp at hl
  | succ n ih =>
      intro s hl hn
      cases s with
      | nil => rfl
      | cons c rest =>
          unfold phStep3Go
          rw [if_neg (by intro hc; subst hc; exact hn (List.mem_cons_self _ _))]
          rw [ih rest (by simp at hl; omega) (fun hm => hn (List.mem_cons_of_mem _ hm))]

theorem phStep3_id {s : List Char} (h : '<' ∉ s) : phStep3 s = s :=
  phStep3Go_id s.length s le_rfl h

theorem phStep4Go_id : ∀ (fuel : Nat) (s : List Char), s.length ≤ fuel → '&' ∉ s →
    phStep4Go fuel s = s := by
  intro fuel
  induction fuel with
  | zero =>
      intro s hl _
      cases s with
      | nil => rfl
      | cons c rest => simp at hl
  | succ n ih =>
      intro s hl hn
      cases s with
      | nil => rfl
      | cons c rest =>
          unfold phStep4Go
          have hnp : ¬((['&', 'a', 'm', 'p', ';']).isPrefixOf (c :: rest) = true) := by
            intro hp
            rw [List.isPrefixOf_iff_prefix] at hp
            obtain ⟨t, ht⟩ := hp
            simp only [List.cons_append] at ht
            obtain ⟨hc, -⟩ := List.cons.inj ht
            exact hn (hc ▸ List.mem_cons_self c rest)
          rw [if_neg hnp]
          rw [ih rest (by simp at hl; omega) (fun hm => hn (List.mem_cons_of_mem _ hm))]

theorem phStep4_id {s : List Char} (h : '&' ∉ s) : phStep4 s = s :=
  phStep4Go_id s.length s le_rfl h

theorem matchPipe_eq_none {s : List Char} (h : '|' ∉ s) : matchPipe s = none := by
  unfold matchPipe
  cases hd : s.dropWhile (fun c => c = ' ') with
  | nil => rfl
  | cons c rest =>
      have hc : c ∈ s := by
        have hsub :=
          (List.dropWhile_sublist (fun c => c = ' ') :
            List.Sublist (s.dropWhile (fun c => c = ' ')) s).subset
        apply hsub
        rw [hd]
        exact List.mem_cons_self _ _
      split
      · rename_i r heq
        obtain ⟨hc', -⟩ := List.cons.inj heq
        exact absurd (hc' ▸ hc) h
      · rfl

theorem phStep5Go_id : ∀ (fuel : Nat) (s : List Char), s.length ≤ fuel → '|' ∉ s →
    phStep5Go fuel s = s := by
  intro fuel
  induction fuel with
  | zero =>
      intro s hl _
      cases s with
      | nil => rfl
      | cons c rest => simp at hl
  | succ n ih =>
      intro s hl hn
      cases s with
      | nil => rfl
      | cons c rest =>
          unfold phStep5Go
          rw [matchPipe_eq_none hn]
          rw [ih rest (by simp at hl; omega) (fun hm => hn (List.mem_cons_of_mem _ hm))]

theorem phStep5_id {s : List Char} (h : '|' ∉ s) : phStep5 s = s :=
  phStep5Go_id s.length s le_rfl h

theorem phStep6_id {s : List Char}
    (h : ¬((['P', 'l', 'u', 'r', 'a', 'l', 'i', 's', 't', 'i', 'c', ':']).isPrefixOf s = true)) :
    phStep6 s = s := by
  unfold phStep6
  rw [if_neg h]

theorem unescapeGo_id : ∀ (fuel : Nat) (s : List Char), s.length ≤ fuel → '&' ∉ s →
    unescapeGo fuel s = s := by
  intro fuel
  induction fuel with
  | zero =>
      intro s hl _
      cases s with
      | nil => rfl
      | cons c rest => simp at hl
  | succ n ih =>
      intro s hl hn
      cases s with
      | nil => rfl
      | cons c rest =>
          unfold unescapeGo
          rw [if_neg (by intro hc; subst hc; exact hn (List.mem_cons_self _ _))]
          rw [ih rest (by simp at hl; omega) (fun hm => hn (List.mem_cons_of_mem _ hm))]

theorem unescape_id {s : List Char} (h : '&' ∉ s) : unescape s = s :=
  unescapeGo_id s.length s le_rfl h

/-- **C7 (amended).**  The normalizer is *not* idempotent in general (see
the counterexample: the final entity-unescape can reintroduce characters
that the earlier passes act on, and the Pluralistic wrapper can nest).
One application is the identity — hence a second application changes
nothing — on every headline containing none of the trigger characters
`'\n'`, `'<'`, `'&'`, `'|'` and not starting with `"Pluralistic:"`. -/
theorem process_headline_fixed_on_plain (s : List Char)
    (h1 : '\n' ∉ s) (h2 : '<' ∉ s) (h3 : '&' ∉ s) (h4 : '|' ∉ s)
    (h5 : ¬((['P', 'l', 'u', 'r', 'a', 'l', 'i', 's', 't', 'i', 'c', ':']).isPrefixOf s = true)) :
    process_headline s = .ok s := by
  unfold process_headline
  rw [phStep1_id h1, phStep2_id h2]
  dsimp only
  rw [phStep3_id h2, phStep4_id h3, phStep5_id h4, phStep6_id h5, unescape_id h3]

/-- **C7 witness.** -/
theorem process_headline_fixed_on_plain_witness :
    process_headline "Hello world".toList = .ok "Hello world".toList :=
  process_headline_fixed_on_plain _ (by decide) (by decide) (by decide) (by decide) (by decide)

/-- **C7 counterexample.**  `process_headline("&lt;b&gt;") = "<b>"`, but
a second application strips the reintroduced tag: `process_headline("<b>")
= ""`.  So `process_headline ∘ process_headline ≠ process_headline`. -/
theorem process_headline_not_idempotent :
    process_headline "&lt;b&gt;".toList = .ok ['<', 'b', '>'] ∧
    process_headline ['<', 'b', '>'] = .ok [] ∧
    (['<', 'b', '>'] : List Char) ≠ [] := by
  refine ⟨by decide, by decide, by decide⟩

/-! Facts about the unposted-article selection (C2, C4, C9). -/

theorem pickMin_some (acc : Option Article) (a : Article) :
    ∃ c, pickMin acc a = some c ∧ c.id ≤ a.id ∧
      (∀ b, acc = some b → c.id ≤ b.id) ∧ (acc = some c ∨ c = a) := by
  cases acc with
  | none => exact ⟨a, rfl, le_rfl, by simp, Or.inr rfl⟩
  | some b =>
      by_cases hab : a.id < b.id
      · refine ⟨a, by simp [pickMin, hab], le_rfl, ?_, Or.inr rfl⟩
        intro b' hb'
        obtain rfl : b = b' := by injection hb'
        omega
      · refine ⟨b, by simp [pickMin, hab], by omega, ?_, Or.inl rfl⟩
        intro b' hb'
        obtain rfl : b = b' := by injection hb'
        exact le_rfl

theorem foldl_pickMin_sound : ∀ (l : List Article) (acc : Option Article) (a : Article),
    l.foldl pickMin acc = some a →
    (acc = some a ∨ a ∈ l) ∧ (∀ b ∈ l, a.id ≤ b.id) ∧
      (∀ b, acc = some b → a.id ≤ b.id) := by
  intro l
  induction l with
  | nil =>
      intro acc a h
      simp only [List.foldl_nil] at h
      refine ⟨Or.inl h, by simp, ?_⟩
      intro b hb
      rw [h] at hb
      obtain rfl : a = b := by injection hb
      exact le_rfl
  | cons x xs ih =>
      intro acc a h
      obtain ⟨hmem, hmin, hacc⟩ := ih (pickMin acc x) a h
      obtain ⟨c, hc, hcx, hcacc, hcor⟩ := pickMin_some acc x
      have hac : a.id ≤ c.id := hacc c hc
      constructor
      · rcases hmem with h0 | h0
        · rw [hc] at h0
          obtain rfl : c = a := by injection h0
          rcases hcor with h1 | h1
          · exact Or.inl h1
          · exact Or.inr (h1 ▸ List.mem_cons_self _ _)
        · exact Or.inr (List.mem_cons_of_mem _ h0)
      constructor
      · intro b hb
        rcases List.mem_cons.mp hb with h0 | h0
        · subst h0; omega
        · exact hmin b h0
      · intro b hb
        have := hcacc b hb
        omega

theorem foldl_pickMin_none : ∀ (l : List Article) (acc : Option Article),
    l.foldl pickMin acc = none → acc = none ∧ l = [] := by
  intro l
  induction l with
  | nil => intro acc h; exact ⟨h, rfl⟩
  | cons x xs ih =>
      intro acc h
      obtain ⟨h1, -⟩ := ih (pickMin acc x) h
      obtain ⟨c, hc, -⟩ := pickMin_some acc x
      rw [hc] at h1
      cases h1

/-- What `get_unposted_article = some a` means: `a` is a null-post article
of the feed with minimal id among those. -/
theorem get_unposted_spec {db : DB} {fid : Nat} {a : Article}
    (h : db.get_unposted_article fid = some a) :
    a ∈ db.articles ∧ a.feed_id = fid ∧ a.lemmy_post_id = none ∧
      ∀ b ∈ db.articles, b.feed_id = fid → b.lemmy_post_id = none → a.id ≤ b.id := by
  unfold DB.get_unposted_article at h
  obtain ⟨hmem, hmin, -⟩ := foldl_pickMin_sound _ _ _ h
  rcases hmem with h0 | h0
  · cases h0
  · obtain ⟨ha, hpred⟩ := List.mem_filter.mp h0
    simp only [Bool.and_eq_true, beq_iff_eq] at hpred
    obtain ⟨hfeed, hnull⟩ := hpred
    refine ⟨ha, hfeed, hnull, ?_⟩
    intro b hb hbf hbn
    exact hmin b (List.mem_filter.mpr ⟨hb, by simp [hbf, hbn]⟩)

theorem get_unposted_none {db : DB} {fid : Nat}
    (h : db.get_unposted_article fid = none) :
    ∀ b ∈ db.articles, b.feed_id = fid → b.lemmy_post_id = none → False := by
  unfold DB.get_unposted_article at h
  obtain ⟨-, hl⟩ := foldl_pickMin_none _ _ h
  intro b hb hbf hbn
  have : b ∈ db.articles.filter (fun a => a.feed_id == fid && a.lemmy_post_id == none) :=
    List.mem_filter.mpr ⟨hb, by simp [hbf, hbn]⟩
  rw [hl] at this
  cases this

/-! State predicates tracked along a publish trace. -/

/-- Some article row carries id `w`. -/
def present (db : DB) (w : Nat) : Prop := ∃ a ∈ db.articles, a.id = w

/-- Every article row with id `aid` has a non-null `lemmy_post_id`. -/
def recorded (db : DB) (aid : Nat) : Prop :=
  ∀ a ∈ db.articles, a.id = aid → a.lemmy_post_id ≠ none

/-- Every unposted article of the feed has id above `w`. -/
def nullsAbove (db : DB) (fid w : Nat) : Prop :=
  ∀ a ∈ db.articles, a.feed_id = fid → a.lemmy_post_id = none → w < a.id

theorem add_article_articles (db : DB) (fid : Nat) (url : String) :
    (db.add_article fid url).articles = db.articles ∨
    (db.add_article fid url).articles =
      db.articles ++ [⟨freshId (db.articles.map Article.id), fid, url, none⟩] := by
  unfold DB.add_article
  split
  · exact Or.inl rfl
  · exact Or.inr rfl

theorem present_lt_freshId {db : DB} {w : Nat} (h : present db w) :
    w < freshId (db.articles.map Article.id) := by
  obtain ⟨a, ha, haid⟩ := h
  exact haid ▸ freshId_gt (List.mem_map_of_mem Article.id ha)

theorem present_addArticle {db : DB} {fid : Nat} {url : String} {w : Nat}
    (h : present db w) : present (db.add_article fid url) w := by
  obtain ⟨a, ha, haid⟩ := h
  rcases add_article_articles db fid url with he | he
  · exact ⟨a, he ▸ ha, haid⟩
  · exact ⟨a, he ▸ List.mem_append_left _ ha, haid⟩

theorem recorded_addArticle {db : DB} {fid : Nat} {url : String} {aid : Nat}
    (hp : present db aid) (hr : recorded db aid) :
    recorded (db.add_article fid url) aid := by
  intro a ha haid
  rcases add_article_articles db fid url with he | he
  · exact hr a (he ▸ ha) haid
  · rw [he] at ha
    rcases List.mem_append.mp ha with h0 | h0
    · exact hr a h0 haid
    · have : a = ⟨freshId (db.articles.map Article.id), fid, url, none⟩ := by simpa using h0
      subst this
      exact absurd haid (by have := present_lt_freshId hp; simp; omega)

theorem nullsAbove_addArticle {db : DB} {fid fid2 : Nat} {url : String} {w : Nat}
    (hp : present db w) (hn : nullsAbove db fid w) :
    nullsAbove (db.add_article fid2 url) fid w := by
  intro a ha haf han
  rcases add_article_articles db fid2 url with he | he
  · exact hn a (he ▸ ha) haf han
  · rw [he] at ha
    rcases List.mem_append.mp ha with h0 | h0
    · exact hn a h0 haf han
    · have : a = ⟨freshId (db.articles.map Article.id), fid2, url, none⟩ := by simpa using h0
      subst this
      have := present_lt_freshId hp
      simpa using this

theorem update_articles_mem {db : DB} {aid pid : Nat} {b : Article}
    (hb : b ∈ (db.update_article_post_id aid pid).articles) :
    ∃ b0 ∈ db.articles,
      b = (if b0.id = aid then { b0 with lemmy_post_id := some pid } else b0) := by
  unfold DB.update_article_post_id at hb
  obtain ⟨b0, hb0, hbe⟩ := List.mem_map.mp hb
  exact ⟨b0, hb0, hbe.symm⟩

theorem present_update {db : DB} {aid pid w : Nat} (h : present db w) :
    present (db.update_article_post_id aid pid) w := by
  obtain ⟨a, ha, haid⟩ := h
  refine ⟨if a.id = aid then { a with lemmy_post_id := some pid } else a,
    List.mem_map_of_mem _ ha, ?_⟩
  split <;> simpa using haid

theorem recorded_update_self {db : DB} {aid pid : Nat} :
    recorded (db.update_article_post_id aid pid) aid := by
  intro a ha haid
  obtain ⟨b0, -, hbe⟩ := update_articles_mem ha
  by_cases h0 : b0.id = aid
  · rw [if_pos h0] at hbe
    subst hbe
    simp
  · rw [if_neg h0] at hbe
    subst hbe
    exact absurd haid h0

theorem recorded_update {db : DB} {aid pid w : Nat} (hr : recorded db w) :
    recorded (db.update_article_post_id aid pid) w := by
  intro a ha haid
  obtain ⟨b0, hb0, hbe⟩ := update_articles_mem ha
  by_cases h0 : b0.id = aid
  · rw [if_pos h0] at hbe
    subst hbe
    simp
  · rw [if_neg h0] at hbe
    subst hbe
    exact hr _ hb0 haid

theorem nullsAbove_update {db : DB} {aid pid fid w : Nat} (hn : nullsAbove db fid w) :
    nullsAbove (db.update_article_post_id aid pid) fid w := by
  intro a ha haf han
  obtain ⟨b0, hb0, hbe⟩ := update_articles_mem ha
  by_cases h0 : b0.id = aid
  · rw [if_pos h0] at hbe
    subst hbe
    simp at han
  · rw [if_neg h0] at hbe
    subst hbe
    exact hn _ hb0 haf han

/-- After publishing the minimal unposted article `a` and recording its
post id, every remaining unposted article of the feed has a larger id. -/
theorem nullsAbove_after_write {db : DB} {fid : Nat} {a : Article} {pid : Nat}
    (hsel : db.get_unposted_article fid = some a) :
    nullsAbove (db.update_article_post_id a.id pid) fid a.id := by
  obtain ⟨-, -, -, hmin⟩ := get_unposted_spec hsel
  intro b hb hbf hbn
  obtain ⟨b0, hb0, hbe⟩ := update_articles_mem hb
  by_cases h0 : b0.id = a.id
  · rw [if_pos h0] at hbe
    subst hbe
    simp at hbn
  · rw [if_neg h0] at hbe
    subst hbe
    have := hmin _ hb0 hbf hbn
    omega

theorem stageNew_present_recorded (fid : Nat) : ∀ (urls : List String) (db : DB) (aid : Nat),
    present db aid → recorded db aid →
    present (stageNew db fid urls) aid ∧ recorded (stageNew db fid urls) aid := by
  intro urls
  induction urls with
  | nil => intro db aid hp hr; exact ⟨hp, hr⟩
  | cons u us ih =>
      intro db aid hp hr
      exact ih (db.add_article fid u) aid (present_addArticle hp) (recorded_addArticle hp hr)

theorem stageNew_present_nullsAbove (fid fid2 : Nat) :
    ∀ (urls : List String) (db : DB) (w : Nat),
    present db w → nullsAbove db fid w →
    present (stageNew db fid2 urls) w ∧ nullsAbove (stageNew db fid2 urls) fid w := by
  intro urls
  induction urls with
  | nil => intro db w hp hn; exact ⟨hp, hn⟩
  | cons u us ih =>
      intro db w hp hn
      exact ih (db.add_article fid2 u) w (present_addArticle hp) (nullsAbove_addArticle hp hn)

/-- Normal form of one per-feed iteration: the staging choice can be
hoisted into a single state `st`, against which the earliest unposted
article is selected. -/
theorem perFeedIter_eq (db : DB) (fid : Nat) (inp : IterInput) :
    perFeedIter db fid inp =
      (let st := if db.get_unposted_article fid = none then stageNew db fid inp.newUrls else db
       match st.get_unposted_article fid with
       | none => (st, [], [inp.backoff])
       | some a =>
         match inp.outcome with
         | .raises => (st, [(a.id, .raises)], [])
         | .crashAfterSuccess pid => (st, [(a.id, .crashAfterSuccess pid)], [])
         | .noPost => (st, [(a.id, .noPost)],
             [if st.get_unposted_article fid ≠ none then inp.now + MIN_BACKOFF
              else inp.backoff])
         | .success pid =>
             let db2 := if pid ≠ 0 then st.update_article_post_id a.id pid else st
             (db2, [(a.id, .success pid)],
              [if db2.get_unposted_article fid ≠ none then inp.now + MIN_BACKOFF
               else inp.backoff])) := by
  unfold perFeedIter
  rcases h0 : db.get_unposted_article fid with - | a
  · simp [h0]
  · simp [h0]

/-- Case analysis of one per-feed iteration: at most one `create_post`
call is issued, it targets the earliest unposted article of the
(possibly staged) state `st`, and the resulting database is `st` itself
unless a truthy post id was recorded. -/
theorem perFeedIter_char (db : DB) (fid : Nat) (inp : IterInput) :
    ∃ st : DB,
      (st = db ∨ st = stageNew db fid inp.newUrls) ∧
      ((∃ a : Article, st.get_unposted_article fid = some a ∧
          (perFeedIter db fid inp).2.1 = [(a.id, inp.outcome)] ∧
          (((perFeedIter db fid inp).1 = st ∧
              ∀ pid, inp.outcome = .success pid → pid = 0) ∨
            ∃ pid, inp.outcome = .success pid ∧ pid ≠ 0 ∧
              (perFeedIter db fid inp).1 = st.update_article_post_id a.id pid)) ∨
        (st.get_unposted_article fid = none ∧
          (perFeedIter db fid inp).2.1 = [] ∧ (perFeedIter db fid inp).1 = st)) := by
  rw [perFeedIter_eq]
  dsimp only
  set st := if db.get_unposted_article fid = none then stageNew db fid inp.newUrls else db
    with hst
  refine ⟨st, ?_, ?_⟩
  · rw [hst]
    split
    · exact Or.inr rfl
    · exact Or.inl rfl
  · rcases h1 : st.get_unposted_article fid with - | a
    · exact Or.inr ⟨rfl, rfl, rfl⟩
    · refine Or.inl ⟨a, rfl, ?_, ?_⟩
      · cases ho : inp.outcome <;> rfl
      · cases ho : inp.outcome with
        | raises => exact Or.inl ⟨rfl, fun pid hpid => PublishOutcome.noConfusion hpid⟩
        | crashAfterSuccess pid =>
            exact Or.inl ⟨rfl, fun pid hpid => PublishOutcome.noConfusion hpid⟩
        | noPost => exact Or.inl ⟨rfl, fun pid hpid => PublishOutcome.noConfusion hpid⟩
        | success pid =>
            by_cases hp : pid ≠ 0
            · exact Or.inr ⟨pid, rfl, hp, by simp only [if_pos hp]⟩
            · refine Or.inl ⟨by simp only [if_neg hp], ?_⟩
              intro pid' hpid'
              obtain rfl : pid = pid' := by injection hpid'
              omega

theorem perFeedIter_calls_len (db : DB) (fid : Nat) (inp : IterInput) :
    (perFeedIter db fid inp).2.1.length ≤ 1 := by
  obtain ⟨st, -, hcase⟩ := perFeedIter_char db fid inp
  rcases hcase with ⟨a, -, hcalls, -⟩ | ⟨-, hcalls, -⟩ <;> simp [hcalls]

theorem perFeedIter_pres_rec {db : DB} {fid : Nat} {inp : IterInput} {aid : Nat}
    (hp : present db aid) (hr : recorded db aid) :
    present (perFeedIter db fid inp).1 aid ∧ recorded (perFeedIter db fid inp).1 aid := by
  obtain ⟨st, hst, hcase⟩ := perFeedIter_char db fid inp
  have hstpr : present st aid ∧ recorded st aid := by
    rcases hst with h | h
    · subst h; exact ⟨hp, hr⟩
    · subst h; exact stageNew_present_recorded fid inp.newUrls db aid hp hr
  rcases hcase with ⟨a, -, -, hres⟩ | ⟨-, -, hres⟩
  · rcases hres with ⟨h, -⟩ | ⟨pid, -, -, h⟩
    · rw [h]; exact hstpr
    · rw [h]; exact ⟨present_update hstpr.1, recorded_update hstpr.2⟩
  · rw [hres]; exact hstpr

/-- Once every row with a given article id is recorded as posted, no
later iteration ever calls `create_post` for that id again. -/
theorem runTrace_ne_recorded (fid : Nat) : ∀ (trace : List IterInput) (db : DB) (aid : Nat),
    present db aid → recorded db aid →
    ∀ c ∈ (runTrace db fid trace).2, c.1 ≠ aid := by
  intro trace
  induction trace with
  | nil => intro db aid hp hr c hc; simp [runTrace] at hc
  | cons inp rest ih =>
      intro db aid hp hr c hc
      have hsplit : (runTrace db fid (inp :: rest)).2 =
          (perFeedIter db fid inp).2.1 ++ (runTrace (perFeedIter db fid inp).1 fid rest).2 :=
        rfl
      rw [hsplit] at hc
      rcases List.mem_append.mp hc with h0 | h0
      · obtain ⟨st, hst, hcase⟩ := perFeedIter_char db fid inp
        have hstr : present st aid ∧ recorded st aid := by
          rcases hst with h | h
          · subst h; exact ⟨hp, hr⟩
          · subst h; exact stageNew_present_recorded fid inp.newUrls db aid hp hr
        rcases hcase with ⟨a, hsel, hcalls, -⟩ | ⟨-, hcalls, -⟩
        · rw [hcalls] at h0
          have hc0 : c = (a.id, inp.outcome) := by simpa using h0
          subst hc0
          obtain ⟨hmem, -, hnull, -⟩ := get_unposted_spec hsel
          intro hEq
          exact hstr.2 a hmem hEq hnull
        · rw [hcalls] at h0
          cases h0
      · have hpr := @perFeedIter_pres_rec db fid inp aid hp hr
        exact ih ((perFeedIter db fid inp).1) aid hpr.1 hpr.2 c h0

/-- **C2 (amended).**  Along every trace of per-feed iterations (with
crashes at the point between the publish API call and the database
write), the durable `remote_post_id` is written only by a call whose API
response reported success, and once an article's post id has been
durably written, no later `create_post` call ever targets that article
again.  (A crash *between* the successful API response and the write
loses the durable mark, and the article *is* republished after restart —
the counterexample — so the claim's "never republishes an article that
was already successfully published" does not hold; at-most-once holds
only from the durable write onward.) -/
theorem recorded_publish_never_repeated (db : DB) (fid : Nat) (trace : List IterInput) :
    (∀ c : Nat × PublishOutcome, (wroteId c).isSome → apiSucceeded c.2 = true) ∧
    List.Pairwise (fun c c' => (wroteId c).isSome → c'.1 ≠ c.1)
      (runTrace db fid trace).2 := by
  constructor
  · intro c hw
    obtain ⟨a, o⟩ := c
    cases o <;> simp [wroteId, apiSucceeded] at hw ⊢
  · induction trace generalizing db with
    | nil => simp [runTrace]
    | cons inp rest ih =>
        have hsplit : (runTrace db fid (inp :: rest)).2 =
            (perFeedIter db fid inp).2.1 ++ (runTrace (perFeedIter db fid inp).1 fid rest).2 :=
          rfl
        rw [hsplit, List.pairwise_append]
        refine ⟨?_, ih _, ?_⟩
        · obtain ⟨st, -, hcase⟩ := perFeedIter_char db fid inp
          rcases hcase with ⟨a, -, hcalls, -⟩ | ⟨-, hcalls, -⟩ <;> rw [hcalls] <;> simp
        · intro c hc c' hc' hw
          obtain ⟨st, hst, hcase⟩ := perFeedIter_char db fid inp
          rcases hcase with ⟨a, hsel, hcalls, hres⟩ | ⟨-, hcalls, -⟩
          · rw [hcalls] at hc
            have hc0 : c = (a.id, inp.outcome) := by simpa using hc
            subst hc0
            rcases hres with ⟨-, hzero⟩ | ⟨pid, hpe, hnz, hupd⟩
            · cases ho : inp.outcome with
              | raises => rw [ho] at hw; simp [wroteId] at hw
              | noPost => rw [ho] at hw; simp [wroteId] at hw
              | crashAfterSuccess pid => rw [ho] at hw; simp [wroteId] at hw
              | success pid =>
                  rw [ho] at hw
                  simp [wroteId] at hw
                  exact absurd (hzero pid ho) hw
            · obtain ⟨hmem, -, -, -⟩ := get_unposted_spec hsel
              have hprec : present (perFeedIter db fid inp).1 a.id ∧
                  recorded (perFeedIter db fid inp).1 a.id := by
                rw [hupd]
                exact ⟨present_update ⟨a, hmem, rfl⟩, recorded_update_self⟩
              exact runTrace_ne_recorded fid rest _ a.id hprec.1 hprec.2 c' hc'
          · rw [hcalls] at hc
            cases hc

/-- **C2 counterexample.**  Article 1 is published (`create_post`
succeeds, post id 9), the process crashes before the write, and the
restarted loop publishes article 1 again: the trace's `create_post`
calls hit article 1 twice although the first call had already succeeded. -/
theorem crash_between_publish_and_write_republishes :
    (runTrace dbOneUnposted 1 c2Trace).2 =
      [(1, .crashAfterSuccess 9), (1, .success 9)] ∧
    apiSucceeded (PublishOutcome.crashAfterSuccess 9) = true ∧
    ¬ atMostOncePublished dbOneUnposted 1 c2Trace := by
  refine ⟨by decide, by decide, by decide⟩

/-- **C2 witness.** -/
theorem recorded_publish_never_repeated_witness :
    apiSucceeded (PublishOutcome.success 9) = true ∧
    List.Pairwise (fun c c' => (wroteId c).isSome → c'.1 ≠ c.1)
      (runTrace dbOneUnposted 1 [⟨[], .success 9, 0, 0⟩, ⟨["http://b"], .success 10, 0, 0⟩]).2 :=
  ⟨(recorded_publish_never_repeated dbOneUnposted 1
      [⟨[], .success 9, 0, 0⟩, ⟨["http://b"], .success 10, 0, 0⟩]).1 (1, .success 9) (by decide),
   (recorded_publish_never_repeated dbOneUnposted 1
      [⟨[], .success 9, 0, 0⟩, ⟨["http://b"], .success 10, 0, 0⟩]).2⟩

/-- The FIFO induction: along any trace, the durably recorded article ids
form a strictly increasing sequence, and any id bounding the feed's
unposted backlog from below also bounds every later recorded id. -/
theorem runTrace_fifo (fid : Nat) : ∀ (trace : List IterInput) (db : DB),
    List.Chain' (· < ·) ((runTrace db fid trace).2.filterMap wroteId) ∧
    (∀ w, present db w → nullsAbove db fid w →
      ∀ y ∈ (runTrace db fid trace).2.filterMap wroteId, w < y) := by
  intro trace
  induction trace with
  | nil => intro db; simp [runTrace]
  | cons inp rest ih =>
      intro db
      have hsplit : (runTrace db fid (inp :: rest)).2 =
          (perFeedIter db fid inp).2.1 ++ (runTrace (perFeedIter db fid inp).1 fid rest).2 :=
        rfl
      rw [hsplit, List.filterMap_append]
      obtain ⟨st, hst, hcase⟩ := perFeedIter_char db fid inp
      have hstpres : ∀ w, present db w → nullsAbove db fid w →
          present st w ∧ nullsAbove st fid w := by
        intro w hp hn
        rcases hst with h | h
        · subst h; exact ⟨hp, hn⟩
        · subst h; exact stageNew_present_nullsAbove fid fid inp.newUrls db w hp hn
      rcases hcase with ⟨a, hsel, hcalls, hres⟩ | ⟨-, hcalls, hres⟩
      · rw [hcalls]
        rcases hres with ⟨hdb', hzero⟩ | ⟨pid, hpe, hnz, hdb'⟩
        · have hfm : ([(a.id, inp.outcome)].filterMap wroteId) = [] := by
            cases ho : inp.outcome with
            | raises => simp [wroteId]
            | noPost => simp [wroteId]
            | crashAfterSuccess pid => simp [wroteId]
            | success pid => simp [wroteId, hzero pid ho]
          rw [hfm, List.nil_append]
          refine ⟨(ih _).1, ?_⟩
          intro w hp hn y hy
          have hstw := hstpres w hp hn
          have hd : present (perFeedIter db fid inp).1 w ∧
              nullsAbove (perFeedIter db fid inp).1 fid w := by
            rw [hdb']; exact hstw
          exact (ih _).2 w hd.1 hd.2 y hy
        · have hfm : ([(a.id, inp.outcome)].filterMap wroteId) = [a.id] := by
            rw [hpe]; simp [wroteId, hnz]
          rw [hfm]
          have hsel_spec := get_unposted_spec hsel
          have hpres_a : present (perFeedIter db fid inp).1 a.id ∧
              nullsAbove (perFeedIter db fid inp).1 fid a.id := by
            rw [hdb']
            exact ⟨present_update ⟨a, hsel_spec.1, rfl⟩, nullsAbove_after_write hsel⟩
          constructor
          · rw [List.singleton_append, List.chain'_cons']
            refine ⟨?_, (ih _).1⟩
            intro y hy
            have hym : y ∈ (runTrace (perFeedIter db fid inp).1 fid rest).2.filterMap wroteId :=
              List.mem_of_mem_head? hy
            exact (ih _).2 a.id hpres_a.1 hpres_a.2 y hym
          · intro w hp hn y hy
            rw [List.singleton_append] at hy
            rcases List.mem_cons.mp hy with h0 | h0
            · subst h0
              exact (hstpres w hp hn).2 a hsel_spec.1 hsel_spec.2.1 hsel_spec.2.2.1
            · have hstw := hstpres w hp hn
              have hd : present (perFeedIter db fid inp).1 w ∧
                  nullsAbove (perFeedIter db fid inp).1 fid w := by
                rw [hdb']
                exact ⟨present_update hstw.1, nullsAbove_update hstw.2⟩
              exact (ih _).2 w hd.1 hd.2 y h0
      · rw [hcalls]
        simp only [List.filterMap_nil, List.nil_append]
        refine ⟨(ih _).1, ?_⟩
        intro w hp hn y hy
        have hstw := hstpres w hp hn
        have hd : present (perFeedIter db fid inp).1 w ∧
            nullsAbove (perFeedIter db fid inp).1 fid w := by
          rw [hres]; exact hstw
        exact (ih _).2 w hd.1 hd.2 y hy

/-- **C9.**  Per feed, publication is strictly FIFO on article id: the
ids durably recorded by `update_article_post_id` along any trace form a
strictly increasing sequence (each successful write targets the smallest
unposted id, and fresh ids exceed all existing ones), and every per-feed
step of an outer iteration issues at most one `create_post` call. -/
theorem per_feed_publishes_fifo (db : DB) (fid : Nat) (trace : List IterInput) :
    List.Chain' (· < ·) ((runTrace db fid trace).2.filterMap wroteId) ∧
    ∀ (db2 : DB) (inp : IterInput), (perFeedIter db2 fid inp).2.1.length ≤ 1 :=
  ⟨(runTrace_fifo fid trace db).1, fun db2 inp => perFeedIter_calls_len db2 fid inp⟩

/-- **C4 (amended).**  When `create_post` raises, the `except` handler's
`continue` aborts the per-feed step: `update_feed_timestamps` is *not*
called (so `next_check_at` keeps its old value rather than being set to
`now + 5 min` as the claim states), and the attempted article's
`remote_post_id` stays null in the resulting store, so it is retried in
a later cycle. -/
theorem publish_raise_skips_feed_update (db : DB) (fid : Nat) (inp : IterInput)
    (h : inp.outcome = .raises) :
    ((perFeedIter db fid inp).2.1 ≠ [] → (perFeedIter db fid inp).2.2 = []) ∧
    ∀ c ∈ (perFeedIter db fid inp).2.1,
      ∃ a ∈ (perFeedIter db fid inp).1.articles, a.id = c.1 ∧ a.lemmy_post_id = none := by
  rw [perFeedIter_eq]
  dsimp only
  set st := if db.get_unposted_article fid = none then stageNew db fid inp.newUrls else db
    with hst
  rcases h1 : st.get_unposted_article fid with - | a
  · refine ⟨fun h0 => absurd rfl h0, ?_⟩
    intro c hc
    simp at hc
  · rw [h]
    constructor
    · intro _
      rfl
    · intro c hc
      have hc0 : c = (a.id, PublishOutcome.raises) := by simpa using hc
      subst hc0
      obtain ⟨hmem, -, hnull, -⟩ := get_unposted_spec h1
      exact ⟨a, hmem, rfl, hnull⟩

/-- **C4 witness.** -/
theorem publish_raise_skips_feed_update_witness :
    ((perFeedIter dbOneUnposted 1 ⟨[], .raises, 0, 0⟩).2.1 ≠ [] →
      (perFeedIter dbOneUnposted 1 ⟨[], .raises, 0, 0⟩).2.2 = []) ∧
    ∀ c ∈ (perFeedIter dbOneUnposted 1 ⟨[], .raises, 0, 0⟩).2.1,
      ∃ a ∈ (perFeedIter dbOneUnposted 1 ⟨[], .raises, 0, 0⟩).1.articles,
        a.id = c.1 ∧ a.lemmy_post_id = none :=
  publish_raise_skips_feed_update dbOneUnposted 1 ⟨[], .raises, 0, 0⟩ rfl

/-- **C4 counterexample.**  With one unposted article and a raising
`create_post` at `now = 1000`, the per-feed step attempts article 1,
leaves the store untouched, and calls `update_feed_timestamps` *zero*
times — in particular it does not set `next_check` to
`now + MIN_BACKOFF` as the claim requires. -/
theorem publish_raise_no_next_check_write :
    perFeedIter dbOneUnposted 1 ⟨[], .raises, 1000, 2000⟩ =
      (dbOneUnposted, [(1, .raises)], []) ∧
    ([] : List ℚ) ≠ [(1000 : ℚ) + MIN_BACKOFF] := by
  refine ⟨by decide, by decide⟩

end RSSBot
